import Mathlib

/-!
Shallow embedding of `shell/renderer/electron_smooth_round_rect.cc`.

C++ `float` values are modelled as real numbers, `SkPoint`/`SkVector` as a
pair of reals, and an `SkPath` as the list of drawing verbs appended to it.
The rotation count is modelled as `ℕ` (the C++ code only ever passes the
non-negative values 0, 1, 2, 3 and internally 0+1 .. 3+1, on which C++ `%`
agrees with `Nat.mod`).
-/

namespace SmoothRoundRect

open Real

/-- `SkPoint` / `SkVector`: a pair of coordinates. -/
structure Pt where
  x : ℝ
  y : ℝ

/-- Componentwise addition (`SkPoint operator+`). -/
def Pt.add (p q : Pt) : Pt := ⟨p.x + q.x, p.y + q.y⟩

instance : Add Pt := ⟨Pt.add⟩

theorem Pt.add_def (p q : Pt) : p + q = ⟨p.x + q.x, p.y + q.y⟩ := rfl

/-- Component swap, as in `CurveGeometry::arc_connecting_vector_transposed`
(electron_smooth_round_rect.cc lines 58-60). -/
def Pt.transpose (p : Pt) : Pt := ⟨p.y, p.x⟩

/-- `QuarterRotate` (electron_smooth_round_rect.cc lines 18-33):
applies quarter rotations to a point via sign and axis-swap logic. -/
def QuarterRotate (p : Pt) (quarter_rotations : ℕ) : Pt :=
  let sign_x : ℝ := if quarter_rotations % 4 < 2 then 1 else -1
  let sign_y : ℝ := if (quarter_rotations + 1) % 4 < 2 then 1 else -1
  let is_even_rotation : Bool := quarter_rotations % 2 == 0
  let value_x : ℝ := if is_even_rotation then p.x else p.y
  let value_y : ℝ := if is_even_rotation then p.y else p.x
  ⟨sign_x * value_x, sign_y * value_y⟩

/-- `PI_DIV_4` (line 14). -/
noncomputable def PI_DIV_4 : ℝ := π / 4

/-- `CurveGeometry` (lines 46-70): the four per-corner measurements. -/
structure CurveGeometry where
  edge_connecting_offset : ℝ
  edge_curve_offset : ℝ
  arc_curve_offset : ℝ
  arc_connecting_vector : Pt

/-- `CurveGeometry::CurveGeometry(float radius, float smoothness)`
(lines 72-89).  The `EDGE_CURVE_POINT_RATIO` constant (line 15) is the
literal `2.0f / 3.0f`, written inline here. -/
noncomputable def CurveGeometry.make (radius smoothness : ℝ) : CurveGeometry :=
  let edge_connecting_offset := (1 + smoothness) * radius
  let arc_angle := PI_DIV_4 * smoothness
  let arc_connecting_vector : Pt :=
    ⟨1 - Real.sin arc_angle, 1 - Real.cos arc_angle⟩
  let arc_curve_offset := 1 - Real.tan (arc_angle / 2)
  let edge_curve_offset :=
    edge_connecting_offset -
      ((edge_connecting_offset - arc_curve_offset) * (2 / 3))
  ⟨edge_connecting_offset, edge_curve_offset, arc_curve_offset,
    arc_connecting_vector⟩

/-- `CurveGeometry::edge_connecting_vector` (lines 49-51). -/
def CurveGeometry.edge_connecting_vector (c : CurveGeometry) : Pt :=
  ⟨c.edge_connecting_offset, 0⟩

/-- `CurveGeometry::edge_curve_vector` (lines 52-54). -/
def CurveGeometry.edge_curve_vector (c : CurveGeometry) : Pt :=
  ⟨c.edge_curve_offset, 0⟩

/-- `CurveGeometry::arc_curve_vector` (lines 55-57). -/
def CurveGeometry.arc_curve_vector (c : CurveGeometry) : Pt :=
  ⟨c.arc_curve_offset, 0⟩

/-- `CurveGeometry::arc_connecting_vector_transposed` (lines 58-60). -/
def CurveGeometry.arc_connecting_vector_transposed (c : CurveGeometry) : Pt :=
  ⟨c.arc_connecting_vector.y, c.arc_connecting_vector.x⟩

/-- `SkPathDirection`. -/
inductive PathDirection
  | cw
  | ccw
deriving DecidableEq

/-- `SkPath::ArcSize`. -/
inductive ArcSize
  | small
  | large
deriving DecidableEq

/-- One `SkPath` drawing verb, as appended by `moveTo` / `lineTo` /
`cubicTo` / `arcTo` / `close`. -/
inductive Verb
  | move (p : Pt)
  | line (p : Pt)
  | cubic (c1 c2 p : Pt)
  | arc (radii : Pt) (xAxisRotate : ℝ) (size : ArcSize) (dir : PathDirection) (p : Pt)
  | close

/-- The verb's target point (the point the pen ends at), when it has one. -/
def Verb.target : Verb → Option Pt
  | .move p => some p
  | .line p => some p
  | .cubic _ _ p => some p
  | .arc _ _ _ _ p => some p
  | .close => none

/-- The verb's constructor kind, for counting path commands. -/
inductive VerbKind
  | move
  | line
  | cubic
  | arc
  | close
deriving DecidableEq

/-- Kind of a verb. -/
def Verb.kind : Verb → VerbKind
  | .move _ => .move
  | .line _ => .line
  | .cubic _ _ _ => .cubic
  | .arc _ _ _ _ _ => .arc
  | .close => .close

/-- `DrawCorner` (lines 91-146): appends the corner's move-or-line, first
smoothing curve, arc, and second smoothing curve to the path. -/
noncomputable def DrawCorner (path : List Verb) (radius : ℝ)
    (curve : CurveGeometry) (corner : Pt) (quarter_rotations : ℕ) :
    List Verb :=
  let edge_connecting_point :=
    corner + QuarterRotate curve.edge_connecting_vector (quarter_rotations + 1)
  let first_verb : Verb :=
    if quarter_rotations = 0 then .move edge_connecting_point
    else .line edge_connecting_point
  let edge_curve_point :=
    corner + QuarterRotate curve.edge_curve_vector (quarter_rotations + 1)
  let arc_curve_point :=
    corner + QuarterRotate curve.arc_curve_vector (quarter_rotations + 1)
  let curve_arc_connecting_point :=
    corner +
      QuarterRotate curve.arc_connecting_vector_transposed quarter_rotations
  let arc_connecting_point :=
    corner + QuarterRotate curve.arc_connecting_vector quarter_rotations
  let second_arc_curve_point :=
    corner + QuarterRotate curve.arc_curve_vector quarter_rotations
  let second_edge_curve_point :=
    corner + QuarterRotate curve.edge_curve_vector quarter_rotations
  let second_edge_connecting_point :=
    corner + QuarterRotate curve.edge_connecting_vector quarter_rotations
  path ++
    [first_verb,
     .cubic edge_curve_point arc_curve_point curve_arc_connecting_point,
     .arc ⟨radius, radius⟩ 0 .small .cw arc_connecting_point,
     .cubic second_arc_curve_point second_edge_curve_point
       second_edge_connecting_point]

/-- `DrawSmoothRoundRect` (lines 152-196): the four corners in clockwise
order (top-left, top-right, bottom-right, bottom-left), then `close`. -/
noncomputable def DrawSmoothRoundRect (x y width height smoothness
    top_left_radius top_right_radius bottom_right_radius
    bottom_left_radius : ℝ) : List Verb :=
  let p0 := DrawCorner [] top_left_radius
    (CurveGeometry.make top_left_radius smoothness) ⟨x, y⟩ 0
  let p1 := DrawCorner p0 top_right_radius
    (CurveGeometry.make top_right_radius smoothness) ⟨x + width, y⟩ 1
  let p2 := DrawCorner p1 bottom_right_radius
    (CurveGeometry.make bottom_right_radius smoothness)
    ⟨x + width, y + height⟩ 2
  let p3 := DrawCorner p2 bottom_left_radius
    (CurveGeometry.make bottom_left_radius smoothness) ⟨x, y + height⟩ 3
  p3 ++ [.close]

/-- `DCHECK`-instrumented `CurveGeometry` constructor (lines 73-75):
`none` exactly when one of its fatal assertions fires. -/
noncomputable def CurveGeometry.makeChecked (radius smoothness : ℝ) :
    Option CurveGeometry :=
  if 0 < radius ∧ 0 < smoothness ∧ smoothness ≤ 1 then
    some (CurveGeometry.make radius smoothness)
  else none

/-- `DCHECK`-instrumented `DrawCorner` (lines 96-97): `none` exactly when
the rotation index is out of range (the lower bound `0 ≤ quarter_rotations`
is carried by the `ℕ` type). -/
noncomputable def DrawCornerChecked (path : List Verb) (radius : ℝ)
    (curve : CurveGeometry) (corner : Pt) (quarter_rotations : ℕ) :
    Option (List Verb) :=
  if quarter_rotations < 4 then
    some (DrawCorner path radius curve corner quarter_rotations)
  else none

/-- `DCHECK`-instrumented `DrawSmoothRoundRect` (lines 161-169): `none`
exactly when a fatal assertion fires in it or in a callee. -/
noncomputable def DrawSmoothRoundRectChecked (x y width height smoothness
    top_left_radius top_right_radius bottom_right_radius
    bottom_left_radius : ℝ) : Option (List Verb) :=
  if 0 < width ∧ 0 < height ∧ 0 < smoothness ∧ smoothness ≤ 1 ∧
      0 < top_left_radius ∧ 0 < top_right_radius ∧
      0 < bottom_right_radius ∧ 0 < bottom_left_radius then
    (CurveGeometry.makeChecked top_left_radius smoothness).bind fun c0 =>
      (DrawCornerChecked [] top_left_radius c0 ⟨x, y⟩ 0).bind fun p0 =>
        (CurveGeometry.makeChecked top_right_radius smoothness).bind fun c1 =>
          (DrawCornerChecked p0 top_right_radius c1 ⟨x + width, y⟩ 1).bind
            fun p1 =>
            (CurveGeometry.makeChecked bottom_right_radius smoothness).bind
              fun c2 =>
              (DrawCornerChecked p1 bottom_right_radius c2
                  ⟨x + width, y + height⟩ 2).bind fun p2 =>
                (CurveGeometry.makeChecked bottom_left_radius smoothness).bind
                  fun c3 =>
                  (DrawCornerChecked p2 bottom_left_radius c3
                      ⟨x, y + height⟩ 3).map fun p3 => p3 ++ [.close]
  else none

/-- The four verbs that one corner contributes: `DrawCorner` on an empty
path, with the `CurveGeometry` built from the corner's own radius and the
shared smoothness, exactly as `DrawSmoothRoundRect` invokes it. -/
noncomputable def cornerSegment (radius smoothness : ℝ) (corner : Pt)
    (quarter_rotations : ℕ) : List Verb :=
  DrawCorner [] radius (CurveGeometry.make radius smoothness) corner
    quarter_rotations

section Helpers

lemma sqrt_two_sq : Real.sqrt 2 ^ 2 = 2 :=
  Real.sq_sqrt (by norm_num)

lemma one_le_sqrt_two : (1 : ℝ) ≤ Real.sqrt 2 := by
  nlinarith [sqrt_two_sq, Real.sqrt_nonneg 2]

lemma sqrt_two_lt_two : Real.sqrt 2 < 2 := by
  nlinarith [sqrt_two_sq, Real.sqrt_nonneg 2]

lemma tan_pi_div_eight_eq : Real.tan (π / 8) = Real.sqrt 2 - 1 := by
  have hpos : (0 : ℝ) < 2 + Real.sqrt 2 := by
    nlinarith [Real.sqrt_nonneg 2]
  have hb : (0 : ℝ) < Real.sqrt (2 + Real.sqrt 2) := Real.sqrt_pos.mpr hpos
  have key : Real.sqrt (2 - Real.sqrt 2) =
      (Real.sqrt 2 - 1) * Real.sqrt (2 + Real.sqrt 2) := by
    have hsq : ((Real.sqrt 2 - 1) * Real.sqrt (2 + Real.sqrt 2)) ^ 2 =
        2 - Real.sqrt 2 := by
      rw [mul_pow, Real.sq_sqrt hpos.le]
      nlinarith [sqrt_two_sq]
    have hnn : (0 : ℝ) ≤ (Real.sqrt 2 - 1) * Real.sqrt (2 + Real.sqrt 2) :=
      mul_nonneg (by linarith [one_le_sqrt_two]) hb.le
    rw [← hsq, Real.sqrt_sq hnn]
  rw [Real.tan_eq_sin_div_cos, Real.sin_pi_div_eight, Real.cos_pi_div_eight,
    key]
  field_simp

lemma tan_smooth_nonneg (s : ℝ) (hs : 0 < s) (hs1 : s ≤ 1) :
    0 ≤ Real.tan (π / 4 * s / 2) := by
  have hpi := Real.pi_pos
  exact Real.tan_nonneg_of_nonneg_of_le_pi_div_two (by positivity)
    (by nlinarith)

lemma tan_smooth_le (s : ℝ) (hs : 0 < s) (hs1 : s ≤ 1) :
    Real.tan (π / 4 * s / 2) ≤ Real.sqrt 2 - 1 := by
  have hpi := Real.pi_pos
  rw [← tan_pi_div_eight_eq]
  rcases eq_or_lt_of_le (show π / 4 * s / 2 ≤ π / 8 by nlinarith) with h | h
  · rw [h]
  · exact (Real.tan_lt_tan_of_nonneg_of_lt_pi_div_two (by positivity)
      (by nlinarith) h).le

lemma sin_smooth_le (s : ℝ) (hs : 0 < s) (hs1 : s ≤ 1) :
    Real.sin (π / 4 * s) ≤ Real.sqrt 2 / 2 := by
  have hpi := Real.pi_pos
  rw [← Real.sin_pi_div_four]
  rcases eq_or_lt_of_le (show π / 4 * s ≤ π / 4 by nlinarith) with h | h
  · rw [h]
  · exact (Real.sin_lt_sin_of_lt_of_le_pi_div_two (by nlinarith)
      (by nlinarith) h).le

lemma cos_smooth_ge (s : ℝ) (hs : 0 < s) (hs1 : s ≤ 1) :
    Real.sqrt 2 / 2 ≤ Real.cos (π / 4 * s) := by
  have hpi := Real.pi_pos
  rw [← Real.cos_pi_div_four]
  exact Real.cos_le_cos_of_nonneg_of_le_pi (by positivity) (by nlinarith)
    (by nlinarith)

lemma arc_curve_offset_eq (radius s : ℝ) :
    (CurveGeometry.make radius s).arc_curve_offset =
      1 - Real.tan (π / 4 * s / 2) := by
  simp [CurveGeometry.make, PI_DIV_4]

lemma edge_connecting_offset_eq (radius s : ℝ) :
    (CurveGeometry.make radius s).edge_connecting_offset =
      (1 + s) * radius := by
  simp [CurveGeometry.make]

lemma edge_curve_offset_eq (radius s : ℝ) :
    (CurveGeometry.make radius s).edge_curve_offset =
      (1 + s) * radius -
        (((1 + s) * radius - (1 - Real.tan (π / 4 * s / 2))) * (2 / 3)) := by
  simp [CurveGeometry.make, PI_DIV_4]

lemma arc_connecting_vector_eq (radius s : ℝ) :
    (CurveGeometry.make radius s).arc_connecting_vector =
      ⟨1 - Real.sin (π / 4 * s), 1 - Real.cos (π / 4 * s)⟩ := by
  simp [CurveGeometry.make, PI_DIV_4]

lemma DrawCorner_eq_append (path : List Verb) (radius : ℝ)
    (curve : CurveGeometry) (corner : Pt) (q : ℕ) :
    DrawCorner path radius curve corner q =
      path ++ DrawCorner [] radius curve corner q := by
  simp [DrawCorner]

end Helpers

/-- C1: for every 2D vector `v` and rotation index `n` in `0..3`,
`QuarterRotate v n` is `v` rotated clockwise by `n` quarter turns
(the matrix `(cos θ, sin θ; -sin θ, cos θ)` at `θ = n * π/2`), and it is
computed algebraically: the x sign is positive iff `n % 4 < 2`, the y sign
is positive iff `(n + 1) % 4 < 2`, and the two components are swapped
before applying the signs iff `n` is odd. -/
theorem C1_QuarterRotate_clockwise (v : Pt) (n : ℕ) (h : n < 4) :
    QuarterRotate v n =
      ⟨v.x * Real.cos (n * (π / 2)) + v.y * Real.sin (n * (π / 2)),
       -v.x * Real.sin (n * (π / 2)) + v.y * Real.cos (n * (π / 2))⟩ ∧
    (QuarterRotate v n).x =
      (if n % 4 < 2 then (1 : ℝ) else -1) *
        (if n % 2 = 0 then v.x else v.y) ∧
    (QuarterRotate v n).y =
      (if (n + 1) % 4 < 2 then (1 : ℝ) else -1) *
        (if n % 2 = 0 then v.y else v.x) := by
  refine ⟨?_, ?_, ?_⟩
  · interval_cases n
    · simp [QuarterRotate]
    · simp [QuarterRotate]
    · push_cast
      rw [show ((2 : ℝ) * (π / 2)) = π by ring]
      simp [QuarterRotate]
    · push_cast
      rw [show ((3 : ℝ) * (π / 2)) = π + π / 2 by ring]
      simp [QuarterRotate, Real.cos_add, Real.sin_add]
  · simp [QuarterRotate]
  · simp [QuarterRotate]

/-- Witness for C1 at `v = (1, 2)`, `n = 1`: one clockwise quarter turn
maps `(1, 2)` to `(2, -1)`. -/
theorem C1_QuarterRotate_clockwise_witness :
    QuarterRotate ⟨1, 2⟩ 1 = ⟨2, -1⟩ := by
  have h := (C1_QuarterRotate_clockwise ⟨1, 2⟩ 1 (by norm_num)).1
  simpa using h

/-- C2 (code bug record): at the failing input `x = 0, y = 0,
width = 100, height = 100, smoothness = 1`, all radii `= 30`, the path's
initial move point is `(0, -60)` while the final drawn point (the endpoint
of the bottom-left corner's second easing curve, verb index 15) is
`(0, 160)`; the two differ, so the final close verb does not return to the
point the spec says it does. -/
theorem C2_endpoints_differ_at_failing_input :
    ((DrawSmoothRoundRect 0 0 100 100 1 30 30 30 30).head?.bind Verb.target =
      some ⟨0, -60⟩) ∧
    (((DrawSmoothRoundRect 0 0 100 100 1 30 30 30 30).get? 15).bind
        Verb.target = some ⟨0, 160⟩) ∧
    (⟨0, -60⟩ : Pt) ≠ (⟨0, 160⟩ : Pt) := by
  refine ⟨?_, ?_, ?_⟩
  · simp [DrawSmoothRoundRect, DrawCorner, Verb.target, QuarterRotate,
      CurveGeometry.make, CurveGeometry.edge_connecting_vector, Pt.add_def]
    norm_num
  · simp [DrawSmoothRoundRect, DrawCorner, Verb.target, QuarterRotate,
      CurveGeometry.make, CurveGeometry.edge_connecting_vector, Pt.add_def,
      List.get?]
    norm_num
  · intro hcontra
    have hy := congrArg Pt.y hcontra
    norm_num at hy

/-- C3: for every radius `> 0` and smoothness in `(0, 1]`, the
`CurveGeometry` constructor computes exactly the five spec formulas, and in
particular at smoothness `= 1` (radius `30`) the arc angle is `π/4`, the
arc connecting vector is `(1 - √2/2, 1 - √2/2)`, and the arc curve offset
is `1 - tan (π/8) = 2 - √2 ≈ 0.5858`. -/
theorem C3_CurveGeometry_formulas (radius smoothness : ℝ)
    (hr : 0 < radius) (hs : 0 < smoothness) (hs1 : smoothness ≤ 1) :
    (CurveGeometry.make radius smoothness).edge_connecting_offset =
      (1 + smoothness) * radius ∧
    (CurveGeometry.make radius smoothness).arc_connecting_vector =
      ⟨1 - Real.sin (π / 4 * smoothness),
       1 - Real.cos (π / 4 * smoothness)⟩ ∧
    (CurveGeometry.make radius smoothness).arc_curve_offset =
      1 - Real.tan (π / 4 * smoothness / 2) ∧
    (CurveGeometry.make radius smoothness).edge_curve_offset =
      (CurveGeometry.make radius smoothness).edge_connecting_offset -
        ((CurveGeometry.make radius smoothness).edge_connecting_offset -
            (CurveGeometry.make radius smoothness).arc_curve_offset) *
          (2 / 3) ∧
    PI_DIV_4 * 1 = π / 4 ∧
    (CurveGeometry.make 30 1).arc_connecting_vector =
      ⟨1 - Real.sqrt 2 / 2, 1 - Real.sqrt 2 / 2⟩ ∧
    (CurveGeometry.make 30 1).arc_curve_offset = 2 - Real.sqrt 2 ∧
    |(CurveGeometry.make 30 1).arc_curve_offset - 0.5858| < 0.0001 := by
  have hacv1 : (CurveGeometry.make 30 1).arc_curve_offset =
      2 - Real.sqrt 2 := by
    rw [arc_curve_offset_eq, show (π / 4 * 1 / 2 : ℝ) = π / 8 by ring,
      tan_pi_div_eight_eq]
    ring
  refine ⟨edge_connecting_offset_eq radius smoothness,
    arc_connecting_vector_eq radius smoothness,
    arc_curve_offset_eq radius smoothness, ?_, by rw [PI_DIV_4]; ring, ?_,
    hacv1, ?_⟩
  · rw [edge_curve_offset_eq, edge_connecting_offset_eq,
      arc_curve_offset_eq]
  · rw [arc_connecting_vector_eq, show (π / 4 * 1 : ℝ) = π / 4 by ring,
      Real.sin_pi_div_four, Real.cos_pi_div_four]
  · rw [hacv1]
    rw [abs_lt]
    constructor <;> nlinarith [sqrt_two_sq, Real.sqrt_nonneg 2]

/-- Witness for C3 at radius `= 30`, smoothness `= 1`. -/
theorem C3_CurveGeometry_formulas_witness :
    (CurveGeometry.make 30 1).arc_curve_offset = 2 - Real.sqrt 2 :=
  (C3_CurveGeometry_formulas 30 1 (by norm_num) (by norm_num)
    (by norm_num)).2.2.2.2.2.2.1

/-- C4: for every valid input, the path holds exactly one move, three
lines, eight cubic curves, four arcs and one close, in the per-corner
order move-or-line, cubic, arc, cubic for the four corners in clockwise
order, followed by the close. -/
theorem C4_verb_counts (x y w h s tl tr br bl : ℝ)
    (hw : 0 < w) (hh : 0 < h) (hs : 0 < s) (hs1 : s ≤ 1)
    (htl : 0 < tl) (htr : 0 < tr) (hbr : 0 < br) (hbl : 0 < bl) :
    (DrawSmoothRoundRect x y w h s tl tr br bl).map Verb.kind =
      [.move, .cubic, .arc, .cubic,
       .line, .cubic, .arc, .cubic,
       .line, .cubic, .arc, .cubic,
       .line, .cubic, .arc, .cubic, .close] ∧
    ((DrawSmoothRoundRect x y w h s tl tr br bl).map Verb.kind).count
        .move = 1 ∧
    ((DrawSmoothRoundRect x y w h s tl tr br bl).map Verb.kind).count
        .line = 3 ∧
    ((DrawSmoothRoundRect x y w h s tl tr br bl).map Verb.kind).count
        .cubic = 8 ∧
    ((DrawSmoothRoundRect x y w h s tl tr br bl).map Verb.kind).count
        .arc = 4 ∧
    ((DrawSmoothRoundRect x y w h s tl tr br bl).map Verb.kind).count
        .close = 1 := by
  have hmap : (DrawSmoothRoundRect x y w h s tl tr br bl).map Verb.kind =
      [.move, .cubic, .arc, .cubic,
       .line, .cubic, .arc, .cubic,
       .line, .cubic, .arc, .cubic,
       .line, .cubic, .arc, .cubic, .close] := by
    simp [DrawSmoothRoundRect, DrawCorner, Verb.kind]
  rw [hmap]
  refine ⟨rfl, ?_, ?_, ?_, ?_, ?_⟩ <;> decide

/-- Witness for C4 at the unit square with smoothness `1` and radii `1`. -/
theorem C4_verb_counts_witness :
    (DrawSmoothRoundRect 0 0 1 1 1 1 1 1 1).map Verb.kind =
      [.move, .cubic, .arc, .cubic,
       .line, .cubic, .arc, .cubic,
       .line, .cubic, .arc, .cubic,
       .line, .cubic, .arc, .cubic, .close] :=
  (C4_verb_counts 0 0 1 1 1 1 1 1 1 (by norm_num) (by norm_num)
    (by norm_num) (by norm_num) (by norm_num) (by norm_num) (by norm_num)
    (by norm_num)).1

/-- C5 counterexample: at radius `= 1/10` and smoothness `= 1` the claimed
chain `0 ≤ arc_curve_offset ≤ edge_curve_offset ≤ edge_connecting_offset`
fails: the dimensionless `arc_curve_offset = 2 - √2 ≈ 0.586` exceeds both
radius-scaled offsets (`edge_connecting_offset = 0.2`). -/
theorem C5_chain_fails_at_small_radius :
    ¬ (0 ≤ (CurveGeometry.make (1 / 10) 1).arc_curve_offset ∧
       (CurveGeometry.make (1 / 10) 1).arc_curve_offset ≤
         (CurveGeometry.make (1 / 10) 1).edge_curve_offset ∧
       (CurveGeometry.make (1 / 10) 1).edge_curve_offset ≤
         (CurveGeometry.make (1 / 10) 1).edge_connecting_offset) := by
  have ha : (CurveGeometry.make (1 / 10) 1).arc_curve_offset =
      2 - Real.sqrt 2 := by
    rw [arc_curve_offset_eq, show (π / 4 * 1 / 2 : ℝ) = π / 8 by ring,
      tan_pi_div_eight_eq]
    ring
  have he : (CurveGeometry.make (1 / 10) 1).edge_curve_offset =
      (1 + 1) * (1 / 10) -
        (((1 + 1) * (1 / 10) - (2 - Real.sqrt 2)) * (2 / 3)) := by
    rw [edge_curve_offset_eq, show (π / 4 * 1 / 2 : ℝ) = π / 8 by ring,
      tan_pi_div_eight_eq]
    ring_nf
  rintro ⟨-, h2, -⟩
  rw [ha, he] at h2
  nlinarith [sqrt_two_sq, Real.sqrt_nonneg 2]

/-- C5 amended: the chain `0 ≤ arc_curve_offset ≤ edge_curve_offset ≤
edge_connecting_offset` holds for every radius `> 0` and smoothness in
`(0, 1]` such that `1 ≤ (1 + smoothness) * radius` (in particular whenever
`radius ≥ 1`); for smaller products the dimensionless `arc_curve_offset`
can exceed the radius-scaled offsets. -/
theorem C5_chain_of_large_edge_offset (radius smoothness : ℝ)
    (hr : 0 < radius) (hs : 0 < smoothness) (hs1 : smoothness ≤ 1)
    (hbig : 1 ≤ (1 + smoothness) * radius) :
    0 ≤ (CurveGeometry.make radius smoothness).arc_curve_offset ∧
    (CurveGeometry.make radius smoothness).arc_curve_offset ≤
      (CurveGeometry.make radius smoothness).edge_curve_offset ∧
    (CurveGeometry.make radius smoothness).edge_curve_offset ≤
      (CurveGeometry.make radius smoothness).edge_connecting_offset := by
  rw [arc_curve_offset_eq, edge_curve_offset_eq, edge_connecting_offset_eq]
  have h0 := tan_smooth_nonneg smoothness hs hs1
  have h1 := tan_smooth_le smoothness hs hs1
  have h2 := sqrt_two_lt_two
  refine ⟨by linarith, by linarith, by linarith⟩

/-- Witness for the amended C5 at radius `= 1`, smoothness `= 1`. -/
theorem C5_chain_of_large_edge_offset_witness :
    0 ≤ (CurveGeometry.make 1 1).arc_curve_offset ∧
    (CurveGeometry.make 1 1).arc_curve_offset ≤
      (CurveGeometry.make 1 1).edge_curve_offset ∧
    (CurveGeometry.make 1 1).edge_curve_offset ≤
      (CurveGeometry.make 1 1).edge_connecting_offset :=
  C5_chain_of_large_edge_offset 1 1 (by norm_num) (by norm_num)
    (by norm_num) (by norm_num)

/-- C6: the instrumented `DrawSmoothRoundRect` (and the `CurveGeometry`
constructor and `DrawCorner` it invokes) fails a fatal assertion if and
only if a precondition is violated: it returns a path exactly when
`width > 0`, `height > 0`, `smoothness ∈ (0, 1]` and all four radii are
positive, and on every such input it returns the unchecked path. -/
theorem C6_checked_isSome_iff (x y w h s tl tr br bl : ℝ) :
    ((DrawSmoothRoundRectChecked x y w h s tl tr br bl).isSome ↔
      (0 < w ∧ 0 < h ∧ 0 < s ∧ s ≤ 1 ∧
        0 < tl ∧ 0 < tr ∧ 0 < br ∧ 0 < bl)) ∧
    ((0 < w ∧ 0 < h ∧ 0 < s ∧ s ≤ 1 ∧
        0 < tl ∧ 0 < tr ∧ 0 < br ∧ 0 < bl) →
      DrawSmoothRoundRectChecked x y w h s tl tr br bl =
        some (DrawSmoothRoundRect x y w h s tl tr br bl)) := by
  by_cases hP : 0 < w ∧ 0 < h ∧ 0 < s ∧ s ≤ 1 ∧
      0 < tl ∧ 0 < tr ∧ 0 < br ∧ 0 < bl
  · obtain ⟨hw, hh, hs, hs1, h1, h2, h3, h4⟩ := hP
    refine ⟨?_, fun _ => ?_⟩ <;>
      simp [DrawSmoothRoundRectChecked, CurveGeometry.makeChecked,
        DrawCornerChecked, DrawSmoothRoundRect, hw, hh, hs, hs1, h1, h2,
        h3, h4]
  · refine ⟨?_, fun hP2 => absurd hP2 hP⟩
    simp [DrawSmoothRoundRectChecked, hP]

/-- Witness for C6: at a valid input the checked function returns the
unchecked path. -/
theorem C6_checked_isSome_iff_witness :
    DrawSmoothRoundRectChecked 0 0 1 1 1 1 1 1 1 =
      some (DrawSmoothRoundRect 0 0 1 1 1 1 1 1 1) :=
  (C6_checked_isSome_iff 0 0 1 1 1 1 1 1 1).2 (by norm_num)

/-- C7 counterexample: at `v = (1, 0)` and `n = 0`, rotating the transpose
of `v` by `n` quarter turns gives `(0, 1)` while rotating `v` by `n + 1`
quarter turns gives `(0, -1)`, so the claimed identity fails. -/
theorem C7_transpose_shift_fails :
    QuarterRotate (Pt.transpose ⟨1, 0⟩) 0 ≠ QuarterRotate ⟨1, 0⟩ (0 + 1) := by
  intro hcontra
  have hy := congrArg Pt.y hcontra
  simp [QuarterRotate, Pt.transpose] at hy
  norm_num at hy

/-- C7 amended: for every `v` and `n` in `0..3`, transposing conjugates a
quarter rotation into the inverse rotation,
`QuarterRotate (transpose v) n = transpose (QuarterRotate v (4 - n))`;
the originally claimed identity
`QuarterRotate (transpose v) n = QuarterRotate v (n + 1)` holds exactly on
the vectors whose x-component is `0`. -/
theorem C7_transpose_conjugates (v : Pt) (n : ℕ) (h : n < 4) :
    QuarterRotate (Pt.transpose v) n =
      Pt.transpose (QuarterRotate v (4 - n)) ∧
    (QuarterRotate (Pt.transpose v) n = QuarterRotate v (n + 1) ↔
      v.x = 0) := by
  interval_cases n <;>
    exact ⟨by simp [QuarterRotate, Pt.transpose], by
      simp [QuarterRotate, Pt.transpose, Pt.mk.injEq,
        CharZero.eq_neg_self_iff, CharZero.neg_eq_self_iff]⟩

/-- Witness for the amended C7 at `v = (0, 5)`, `n = 2`. -/
theorem C7_transpose_conjugates_witness :
    QuarterRotate (Pt.transpose ⟨0, 5⟩) 2 =
      Pt.transpose (QuarterRotate ⟨0, 5⟩ (4 - 2)) ∧
    QuarterRotate (Pt.transpose ⟨0, 5⟩) 2 = QuarterRotate ⟨0, 5⟩ (2 + 1) := by
  have h := C7_transpose_conjugates ⟨0, 5⟩ 2 (by norm_num)
  exact ⟨h.1, h.2.mpr rfl⟩

/-- C8 counterexample: at radius `= 1` and smoothness `= 1/2`, the
x-component of `arc_connecting_vector`, namely `1 - sin (π/8) ≈ 0.617`,
exceeds `1 - √2/2 ≈ 0.293`, so the components do not both lie in
`[0, 1 - √2/2]`. -/
theorem C8_component_exceeds_bound :
    ¬ ((0 ≤ (CurveGeometry.make 1 (1 / 2)).arc_connecting_vector.x ∧
        (CurveGeometry.make 1 (1 / 2)).arc_connecting_vector.x ≤
          1 - Real.sqrt 2 / 2) ∧
       (0 ≤ (CurveGeometry.make 1 (1 / 2)).arc_connecting_vector.y ∧
        (CurveGeometry.make 1 (1 / 2)).arc_connecting_vector.y ≤
          1 - Real.sqrt 2 / 2)) := by
  have hx : (CurveGeometry.make 1 (1 / 2)).arc_connecting_vector.x =
      1 - Real.sin (π / 8) := by
    rw [arc_connecting_vector_eq, show (π / 4 * (1 / 2) : ℝ) = π / 8 by ring]
  have hsin : Real.sin (π / 8) < Real.sqrt 2 / 2 := by
    have hpi := Real.pi_pos
    rw [← Real.sin_pi_div_four]
    exact Real.sin_lt_sin_of_lt_of_le_pi_div_two (by nlinarith)
      (by nlinarith) (by nlinarith)
  rintro ⟨⟨-, hub⟩, -⟩
  rw [hx] at hub
  linarith

/-- C8 amended: for every radius `> 0` and smoothness in `(0, 1]`, both
components of `arc_connecting_vector` lie in `[0, 1]`; the y-component
`1 - cos (arc_angle)` lies in `[0, 1 - √2/2]`, while the x-component
`1 - sin (arc_angle)` lies in `[1 - √2/2, 1]`. -/
theorem C8_component_bounds (radius smoothness : ℝ)
    (hr : 0 < radius) (hs : 0 < smoothness) (hs1 : smoothness ≤ 1) :
    (1 - Real.sqrt 2 / 2 ≤
        (CurveGeometry.make radius smoothness).arc_connecting_vector.x ∧
      (CurveGeometry.make radius smoothness).arc_connecting_vector.x ≤ 1) ∧
    (0 ≤ (CurveGeometry.make radius smoothness).arc_connecting_vector.y ∧
      (CurveGeometry.make radius smoothness).arc_connecting_vector.y ≤
        1 - Real.sqrt 2 / 2) := by
  rw [arc_connecting_vector_eq]
  have hpi := Real.pi_pos
  have h1 := sin_smooth_le smoothness hs hs1
  have h2 := cos_smooth_ge smoothness hs hs1
  have h3 : 0 ≤ Real.sin (π / 4 * smoothness) :=
    Real.sin_nonneg_of_nonneg_of_le_pi (by positivity) (by nlinarith)
  have h4 : Real.cos (π / 4 * smoothness) ≤ 1 := Real.cos_le_one _
  exact ⟨⟨by simpa using sub_le_sub_left h1 1, by simpa using h3⟩,
    ⟨by simpa using h4, by simpa using sub_le_sub_left h2 1⟩⟩

/-- Witness for the amended C8 at radius `= 1`, smoothness `= 1`. -/
theorem C8_component_bounds_witness :
    (1 - Real.sqrt 2 / 2 ≤
        (CurveGeometry.make 1 1).arc_connecting_vector.x ∧
      (CurveGeometry.make 1 1).arc_connecting_vector.x ≤ 1) ∧
    (0 ≤ (CurveGeometry.make 1 1).arc_connecting_vector.y ∧
      (CurveGeometry.make 1 1).arc_connecting_vector.y ≤
        1 - Real.sqrt 2 / 2) :=
  C8_component_bounds 1 1 (by norm_num) (by norm_num) (by norm_num)

/-- C9: the path decomposes into four per-corner segments followed by the
close, where each segment is a function of that corner's own radius, the
shared smoothness, the corner's position and its rotation index alone;
hence two valid runs differing in a single corner's radius emit identical
segments for the other three corners. -/
theorem C9_corner_locality (x y w h s tl tr br bl tl2 tr2 br2 bl2 : ℝ)
    (hv1 : 0 < w ∧ 0 < h ∧ 0 < s ∧ s ≤ 1 ∧
      0 < tl ∧ 0 < tr ∧ 0 < br ∧ 0 < bl)
    (hv2 : 0 < tl2 ∧ 0 < tr2 ∧ 0 < br2 ∧ 0 < bl2) :
    (DrawSmoothRoundRect x y w h s tl tr br bl =
      cornerSegment tl s ⟨x, y⟩ 0 ++ cornerSegment tr s ⟨x + w, y⟩ 1 ++
        cornerSegment br s ⟨x + w, y + h⟩ 2 ++
        cornerSegment bl s ⟨x, y + h⟩ 3 ++ [Verb.close]) ∧
    (DrawSmoothRoundRect x y w h s tl2 tr2 br2 bl2 =
      cornerSegment tl2 s ⟨x, y⟩ 0 ++ cornerSegment tr2 s ⟨x + w, y⟩ 1 ++
        cornerSegment br2 s ⟨x + w, y + h⟩ 2 ++
        cornerSegment bl2 s ⟨x, y + h⟩ 3 ++ [Verb.close]) ∧
    ((tr = tr2 ∧ br = br2 ∧ bl = bl2) →
      cornerSegment tr s ⟨x + w, y⟩ 1 = cornerSegment tr2 s ⟨x + w, y⟩ 1 ∧
      cornerSegment br s ⟨x + w, y + h⟩ 2 =
        cornerSegment br2 s ⟨x + w, y + h⟩ 2 ∧
      cornerSegment bl s ⟨x, y + h⟩ 3 = cornerSegment bl2 s ⟨x, y + h⟩ 3) ∧
    ((tl = tl2 ∧ br = br2 ∧ bl = bl2) →
      cornerSegment tl s ⟨x, y⟩ 0 = cornerSegment tl2 s ⟨x, y⟩ 0 ∧
      cornerSegment br s ⟨x + w, y + h⟩ 2 =
        cornerSegment br2 s ⟨x + w, y + h⟩ 2 ∧
      cornerSegment bl s ⟨x, y + h⟩ 3 = cornerSegment bl2 s ⟨x, y + h⟩ 3) ∧
    ((tl = tl2 ∧ tr = tr2 ∧ bl = bl2) →
      cornerSegment tl s ⟨x, y⟩ 0 = cornerSegment tl2 s ⟨x, y⟩ 0 ∧
      cornerSegment tr s ⟨x + w, y⟩ 1 = cornerSegment tr2 s ⟨x + w, y⟩ 1 ∧
      cornerSegment bl s ⟨x, y + h⟩ 3 = cornerSegment bl2 s ⟨x, y + h⟩ 3) ∧
    ((tl = tl2 ∧ tr = tr2 ∧ br = br2) →
      cornerSegment tl s ⟨x, y⟩ 0 = cornerSegment tl2 s ⟨x, y⟩ 0 ∧
      cornerSegment tr s ⟨x + w, y⟩ 1 = cornerSegment tr2 s ⟨x + w, y⟩ 1 ∧
      cornerSegment br s ⟨x + w, y + h⟩ 2 =
        cornerSegment br2 s ⟨x + w, y + h⟩ 2) := by
  have hdec : ∀ a b c d : ℝ, DrawSmoothRoundRect x y w h s a b c d =
      cornerSegment a s ⟨x, y⟩ 0 ++ cornerSegment b s ⟨x + w, y⟩ 1 ++
        cornerSegment c s ⟨x + w, y + h⟩ 2 ++
        cornerSegment d s ⟨x, y + h⟩ 3 ++ [Verb.close] := by
    intro a b c d
    rw [DrawSmoothRoundRect, cornerSegment, cornerSegment, cornerSegment,
      cornerSegment]
    rw [DrawCorner_eq_append (DrawCorner (DrawCorner (DrawCorner [] _ _ _ 0)
      _ _ _ 1) _ _ _ 2), DrawCorner_eq_append (DrawCorner (DrawCorner [] _ _
      _ 0) _ _ _ 1), DrawCorner_eq_append (DrawCorner [] _ _ _ 0)]
  refine ⟨hdec tl tr br bl, hdec tl2 tr2 br2 bl2, ?_, ?_, ?_, ?_⟩ <;>
    · rintro ⟨rfl, rfl, rfl⟩
      exact ⟨rfl, rfl, rfl⟩

/-- Witness for C9 at two valid runs differing only in the top-left
radius (`1` versus `2`) on the unit square. -/
theorem C9_corner_locality_witness :
    cornerSegment 1 1 ⟨0 + 1, 0⟩ 1 = cornerSegment 1 1 ⟨0 + 1, 0⟩ 1 ∧
    cornerSegment 1 1 ⟨0 + 1, 0 + 1⟩ 2 = cornerSegment 1 1 ⟨0 + 1, 0 + 1⟩ 2 ∧
    cornerSegment 1 1 ⟨0, 0 + 1⟩ 3 = cornerSegment 1 1 ⟨0, 0 + 1⟩ 3 :=
  (C9_corner_locality 0 0 1 1 1 1 1 1 1 2 1 1 1 (by norm_num)
    (by norm_num)).2.2.1 ⟨rfl, rfl, rfl⟩

/-- C10: for every radius `> 0` and smoothness in `(0, 1]`,
`edge_curve_offset` lies weakly between `arc_curve_offset` and
`edge_connecting_offset`, whichever of the two is larger, because it is
the convex combination `(1/3) * edge_connecting_offset +
(2/3) * arc_curve_offset`. -/
theorem C10_edge_curve_offset_between (radius smoothness : ℝ)
    (hr : 0 < radius) (hs : 0 < smoothness) (hs1 : smoothness ≤ 1) :
    min (CurveGeometry.make radius smoothness).arc_curve_offset
        (CurveGeometry.make radius smoothness).edge_connecting_offset ≤
      (CurveGeometry.make radius smoothness).edge_curve_offset ∧
    (CurveGeometry.make radius smoothness).edge_curve_offset ≤
      max (CurveGeometry.make radius smoothness).arc_curve_offset
        (CurveGeometry.make radius smoothness).edge_connecting_offset ∧
    (CurveGeometry.make radius smoothness).edge_curve_offset =
      (1 / 3) * (CurveGeometry.make radius smoothness).edge_connecting_offset
        + (2 / 3) * (CurveGeometry.make radius smoothness).arc_curve_offset
    := by
  rw [arc_curve_offset_eq, edge_curve_offset_eq, edge_connecting_offset_eq]
  rcases le_total (1 - Real.tan (π / 4 * smoothness / 2))
      ((1 + smoothness) * radius) with hle | hle
  · exact ⟨min_le_iff.mpr (Or.inl (by linarith)),
      le_max_iff.mpr (Or.inr (by linarith)), by ring⟩
  · exact ⟨min_le_iff.mpr (Or.inr (by linarith)),
      le_max_iff.mpr (Or.inl (by linarith)), by ring⟩

/-- Witness for C10 at radius `= 1`, smoothness `= 1`. -/
theorem C10_edge_curve_offset_between_witness :
    min (CurveGeometry.make 1 1).arc_curve_offset
        (CurveGeometry.make 1 1).edge_connecting_offset ≤
      (CurveGeometry.make 1 1).edge_curve_offset ∧
    (CurveGeometry.make 1 1).edge_curve_offset ≤
      max (CurveGeometry.make 1 1).arc_curve_offset
        (CurveGeometry.make 1 1).edge_connecting_offset ∧
    (CurveGeometry.make 1 1).edge_curve_offset =
      (1 / 3) * (CurveGeometry.make 1 1).edge_connecting_offset
        + (2 / 3) * (CurveGeometry.make 1 1).arc_curve_offset :=
  C10_edge_curve_offset_between 1 1 (by norm_num) (by norm_num)
    (by norm_num)

end SmoothRoundRect
